import Mathlib

/-!
Shallow embedding of the rating-ledger core of the labeling app
(src/database.py and the suspicious-user filter of src/app.py).

The single SQLite table `ratings(id, image_id, rating REAL,
user_identifier, timestamp)` is embedded as a `List Row` in insertion
order.  REAL ratings are embedded as rationals; DATETIME timestamps as
naturals; TEXT columns as strings.  Each database function becomes a
pure Lean function from the table (and its explicit inputs) to its
result and, for mutating operations, the new table.
-/

/-- One row of the `ratings` table. -/
structure Row where
  id : String
  image_id : String
  rating : ℚ
  user_identifier : String
  timestamp : Nat
deriving DecidableEq

/-- SQLite ROUND(x, 1) for the migration.  The migration only applies it
to positive arguments (`WHEN rating > 0`), where round-half-up and
SQLite rounding-half-away-from-zero agree. -/
def roundTo1 (q : ℚ) : ℚ := (round (q * 10) : ℤ) / 10

/-- SQL AVG over a list of values: NULL (`none`) on the empty list. -/
def avgQ : List ℚ → Option ℚ
  | [] => none
  | x :: xs => some ((x :: xs).sum / ((x :: xs).length : ℚ))

/-- SQL MIN over a list of values: NULL (`none`) on the empty list. -/
def minQ : List ℚ → Option ℚ
  | [] => none
  | x :: xs => some (xs.foldl min x)

/-- SQL MAX over a list of values: NULL (`none`) on the empty list. -/
def maxQ : List ℚ → Option ℚ
  | [] => none
  | x :: xs => some (xs.foldl max x)

/-- SQL MIN over naturals (timestamps): NULL on the empty list. -/
def minN : List Nat → Option Nat
  | [] => none
  | x :: xs => some (xs.foldl min x)

/-- SQL MAX over naturals (timestamps): NULL on the empty list. -/
def maxN : List Nat → Option Nat
  | [] => none
  | x :: xs => some (xs.foldl max x)

/-- Stable insertion used to model an ORDER BY clause: `x` is placed
before the first element `y` with `le x y`; on ties the earlier element
stays first, which makes the resulting sort stable and deterministic. -/
def insertBy (le : α → α → Bool) (x : α) : List α → List α
  | [] => [x]
  | y :: ys => if le x y then x :: y :: ys else y :: insertBy le x ys

/-- Stable sort used to model an ORDER BY clause (SQLite leaves the
order of rows with equal sort keys unspecified; we fix the stable,
deterministic tie-break, which the spec explicitly allows). -/
def sortBy (le : α → α → Bool) (l : List α) : List α :=
  l.foldr (insertBy le) []

/-- SQLite LIKE matching on lists of characters, ASCII
case-insensitive (the SQLite default): `%` matches any sequence,
`_` matches any single character. -/
def likeChars : List Char → List Char → Bool
  | [], s => s.isEmpty
  | '%' :: ps, s => s.tails.any (fun s2 => likeChars ps s2)
  | '_' :: ps, s =>
    match s with
    | [] => false
    | _ :: s2 => likeChars ps s2
  | p :: ps, s =>
    match s with
    | [] => false
    | c :: s2 => (p.toLower == c.toLower) && likeChars ps s2

/-- SQLite `s LIKE :pattern` where the bound pattern is the Python
f-string percent-wrapped pattern, as in `cleanup_test_users`. -/
def likeWrapped (s pat : String) : Bool :=
  likeChars (('%' :: pat.data) ++ ['%']) s.data

/-- Modelled from the spec: case-insensitive substring containment, the
reading the spec gives of the non-exact cleanup match ("contains
`pattern` as a case-insensitive substring").  Used only to compare the
code against the spec wording. -/
def containsCI (s pat : String) : Bool :=
  decide (pat.data.map Char.toLower <:+: s.data.map Char.toLower)

/-- Schema of the `rating` column as recorded in sqlite_master: the
legacy schema declared it INTEGER, the current one REAL. -/
inductive ColType
  | integer
  | real
deriving DecidableEq

/-- A database state: the schema of the `ratings` table if the table
exists, and its rows in insertion order. -/
structure DB where
  schema : Option ColType
  rows : List Row
deriving DecidableEq

/-- The per-row conversion of `migrate_ratings_scale`: positive ratings
become ROUND(rating / 10.0, 1); all other values pass through. -/
def migrateRow (r : Row) : Row :=
  { r with rating := if 0 < r.rating then roundTo1 (r.rating / 10) else r.rating }

/-- The INSERT ... SELECT of `migrate_ratings_scale` applied to the
whole table. -/
def migrateTable (t : List Row) : List Row := t.map migrateRow

/-- `migrate_ratings_scale` (src/database.py): copies every row into a
new table whose rating column is REAL, converting positive ratings to
the 1.0-10.0 scale, then renames the new table over the old one. -/
def migrate_ratings_scale (db : DB) : DB :=
  { schema := some ColType.real, rows := migrateTable db.rows }

/-- `init_db` (src/database.py): reads the stored CREATE TABLE text from
sqlite_master; if the table exists and its text contains INTEGER (the
legacy rating column type) it migrates; then CREATE TABLE IF NOT EXISTS
creates an empty current-schema table when none exists. -/
def init_db (db : DB) : DB :=
  let db1 := if db.schema = some ColType.integer then migrate_ratings_scale db else db
  if db1.schema = none then { schema := some ColType.real, rows := [] } else db1

/-- `save_rating` (src/database.py): INSERT of one row.  The fresh id
and the current timestamp are external inputs of the embedding. -/
def save_rating (t : List Row) (idv : String) (image_id : String) (rating : ℚ)
    (user_identifier : String) (ts : Nat) : List Row :=
  t ++ [{ id := idv, image_id := image_id, rating := rating,
          user_identifier := user_identifier, timestamp := ts }]

/-- `get_rated_images` (src/database.py): SELECT image_id FROM ratings
WHERE user_identifier = p, returned as a list (no DISTINCT). -/
def get_rated_images (t : List Row) (p : String) : List String :=
  (t.filter (fun r => decide (r.user_identifier = p))).map Row.image_id

/-- Rows of one participant, in table order. -/
def userRows (t : List Row) (p : String) : List Row :=
  t.filter (fun r => decide (r.user_identifier = p))

/-- Rows of one image, in table order. -/
def imageRows (t : List Row) (img : String) : List Row :=
  t.filter (fun r => decide (r.image_id = img))

/-- Valid (positive) rating values recorded for one image. -/
def validRatings (t : List Row) (img : String) : List ℚ :=
  ((t.filter (fun r => decide (r.image_id = img) && decide (0 < r.rating))).map Row.rating)

/-- Valid (positive) rating values recorded for one participant. -/
def userValidRatings (t : List Row) (p : String) : List ℚ :=
  ((t.filter (fun r => decide (r.user_identifier = p) && decide (0 < r.rating))).map Row.rating)

/-- One result row of `get_image_statistics`. -/
structure ImageStats where
  image_id : String
  total_ratings : Nat
  valid_ratings : Nat
  skips : Nat
  flags : Nat
  avg_rating : Option ℚ
  min_rating : Option ℚ
  max_rating : Option ℚ
deriving DecidableEq

/-- The GROUP BY image_id aggregate of `get_image_statistics` for one
image. -/
def mkImageStats (t : List Row) (img : String) : ImageStats :=
  let rs := imageRows t img
  { image_id := img
    total_ratings := rs.length
    valid_ratings := rs.countP (fun r => decide (0 < r.rating))
    skips := rs.countP (fun r => decide (r.rating = -1))
    flags := rs.countP (fun r => decide (r.rating = -2))
    avg_rating := avgQ (validRatings t img)
    min_rating := minQ (validRatings t img)
    max_rating := maxQ (validRatings t img) }

/-- `get_image_statistics` (src/database.py): per-image aggregates over
all events, ORDER BY total_ratings DESC. -/
def get_image_statistics (t : List Row) : List ImageStats :=
  sortBy (fun a b => decide (b.total_ratings ≤ a.total_ratings))
    (((t.map Row.image_id).dedup).map (mkImageStats t))

/-- One result row of `get_user_statistics`. -/
structure UserStats where
  user_identifier : String
  total_submissions : Nat
  valid_ratings : Nat
  skips : Nat
  flags : Nat
  avg_rating : Option ℚ
  first_rating : Option Nat
  last_rating : Option Nat
deriving DecidableEq

/-- The GROUP BY user_identifier aggregate of `get_user_statistics` for
one participant. -/
def mkUserStats (t : List Row) (p : String) : UserStats :=
  let rs := userRows t p
  { user_identifier := p
    total_submissions := rs.length
    valid_ratings := rs.countP (fun r => decide (0 < r.rating))
    skips := rs.countP (fun r => decide (r.rating = -1))
    flags := rs.countP (fun r => decide (r.rating = -2))
    avg_rating := avgQ (userValidRatings t p)
    first_rating := minN (rs.map Row.timestamp)
    last_rating := maxN (rs.map Row.timestamp) }

/-- `get_user_statistics` (src/database.py): per-participant aggregates,
ORDER BY total_submissions DESC. -/
def get_user_statistics (t : List Row) : List UserStats :=
  sortBy (fun a b => decide (b.total_submissions ≤ a.total_submissions))
    (((t.map Row.user_identifier).dedup).map (mkUserStats t))

/-- The result rows of the two queries of `get_top_and_bottom_images`:
(image_id, avg_rating, valid_ratings). -/
abbrev TBEntry := String × ℚ × Nat

/-- The shared subquery of `get_top_and_bottom_images`: rows WHERE
rating > 0, GROUP BY image_id, HAVING at least 2 valid ratings, each
group reported as (image_id, mean valid rating, valid count). -/
def qualifyingImages (t : List Row) : List TBEntry :=
  (((t.filter (fun r => decide (0 < r.rating))).map Row.image_id).dedup).filterMap
    (fun img =>
      let vs := validRatings t img
      if 2 ≤ vs.length then some (img, vs.sum / (vs.length : ℚ), vs.length) else none)

/-- `get_top_and_bottom_images` (src/database.py): the qualifying images
ORDER BY avg_rating DESC LIMIT 3, and the same ORDER BY avg_rating ASC
LIMIT 3. -/
def get_top_and_bottom_images (t : List Row) : List TBEntry × List TBEntry :=
  ((sortBy (fun a b => decide (b.2.1 ≤ a.2.1)) (qualifyingImages t)).take 3,
   (sortBy (fun a b => decide (a.2.1 ≤ b.2.1)) (qualifyingImages t)).take 3)

/-- The match predicate of `cleanup_test_users`: exact (case-sensitive)
equality, or SQLite LIKE against the percent-wrapped pattern. -/
def cleanupMatches (pat : String) (exact : Bool) (r : Row) : Bool :=
  if exact then decide (r.user_identifier = pat) else likeWrapped r.user_identifier pat

/-- `cleanup_test_users` (src/database.py): SELECT DISTINCT the matching
user identifiers; if any, DELETE their rows and return (number of
distinct users, rows deleted); otherwise return (0, 0). -/
def cleanup_test_users (t : List Row) (pat : String) (exact : Bool) :
    (Nat × Nat) × List Row :=
  let users := ((t.filter (cleanupMatches pat exact)).map Row.user_identifier).dedup
  if users.isEmpty then ((0, 0), t)
  else ((users.length, (t.filter (cleanupMatches pat exact)).length),
        t.filter (fun r => ! cleanupMatches pat exact r))

/-- The SELECT ... ORDER BY timestamp DESC LIMIT 1 of
`undo_last_rating`: among the rows with maximal timestamp the first in
table order is returned (SQLite leaves the tie-break unspecified; the
spec makes it implementation-defined). -/
def pickLatest : List Row → Option Row
  | [] => none
  | r :: rs =>
    match pickLatest rs with
    | none => some r
    | some s => if r.timestamp < s.timestamp then some s else some r

/-- `undo_last_rating` (src/database.py): fetch the most recent row of
the participant; if present DELETE it by primary key and return its
(image_id, rating), else return the explicit empty result. -/
def undo_last_rating (t : List Row) (p : String) :
    Option (String × ℚ) × List Row :=
  match pickLatest (userRows t p) with
  | none => (none, t)
  | some r => (some (r.image_id, r.rating), t.filter (fun x => ! decide (x.id = r.id)))

/-- The pandas fillna(0) of the dashboard: a NULL mean valid rating is
replaced by 0 before the suspicious-user comparison. -/
def avgFill (u : UserStats) : ℚ := u.avg_rating.getD 0

/-- The suspicious-user filter of `dashboard_page` (src/app.py): after
fillna(0), keep the users whose mean equals the column maximum or the
column minimum, or whose flags divided by total submissions exceed
0.5. -/
def suspiciousUsers (t : List Row) : List String :=
  match get_user_statistics t with
  | [] => []
  | u :: us =>
    let mx := us.foldl (fun m v => max m (avgFill v)) (avgFill u)
    let mn := us.foldl (fun m v => min m (avgFill v)) (avgFill u)
    ((u :: us).filter (fun v =>
        decide (avgFill v = mx) || decide (avgFill v = mn) ||
        decide ((1 : ℚ) / 2 < (v.flags : ℚ) / (v.total_submissions : ℚ)))).map
      UserStats.user_identifier

/-- Direct per-participant counts, stated independently of the
aggregation pipeline. -/
def totalCount (t : List Row) (p : String) : Nat :=
  t.countP (fun r => decide (r.user_identifier = p))

/-- Direct flag count for one participant. -/
def flagCount (t : List Row) (p : String) : Nat :=
  t.countP (fun r => decide (r.user_identifier = p) && decide (r.rating = -2))

/-- Mean valid rating of one participant, absent when the participant
has no valid ratings. -/
def meanValid (t : List Row) (p : String) : Option ℚ :=
  avgQ (userValidRatings t p)

/-- Mean valid rating with the dashboard zero-fill applied. -/
def meanFill (t : List Row) (p : String) : ℚ :=
  (meanValid t p).getD 0

/-- The distinct participants of the ledger. -/
def participants (t : List Row) : List String :=
  (t.map Row.user_identifier).dedup

/-- The defined mean valid ratings across participants. -/
def definedMeans (t : List Row) : List ℚ :=
  (participants t).filterMap (meanValid t)

/-- Modelled from the spec: the suspicious-user condition as the spec
words it ("mean valid rating equals the global maximum mean or global
minimum mean across all users, OR flag count exceeds half their total
submissions"), where a participant with no valid ratings has no mean.
Used only to compare the code against the spec wording. -/
def specSuspicious (t : List Row) (p : String) : Bool :=
  (participants t).contains p &&
  ((match meanValid t p with
    | none => false
    | some m =>
      ((definedMeans t).all (fun m2 => decide (m2 ≤ m))) ||
      ((definedMeans t).all (fun m2 => decide (m ≤ m2)))) ||
   decide (totalCount t p < 2 * flagCount t p))

/-- Abbreviation for building concrete example rows. -/
def mkR (i : Nat) (img : String) (q : ℚ) (p : String) (ts : Nat) : Row :=
  { id := toString i, image_id := img, rating := q, user_identifier := p, timestamp := ts }

/-- Ledger reached by saving image A twice for participant p (a tolerated
concurrent double submission), once with a positive rating and once as a
skip. -/
def tblDup : List Row :=
  save_rating (save_rating [] "1" "A" 5 "p" 0) "2" "A" (-1) "p" 1

/-- Ledger with a single participant alice. -/
def tblAlice : List Row := [mkR 1 "A" 5 "alice" 0]

/-- Ledger with six images, each rated 5 by the two participants u and v:
six qualifying images whose mean ratings are all tied. -/
def tblTied : List Row :=
  (List.range 6).flatMap (fun i =>
    [mkR (2 * i) (toString i) 5 "u" i, mkR (2 * i + 1) (toString i) 5 "v" i])

/-- Ledger with six images whose mean valid ratings are pairwise
distinct (image i has ratings i+1 and i+2). -/
def tblDistinct : List Row :=
  (List.range 6).flatMap (fun i =>
    [mkR (2 * i) (toString i) ((i : ℚ) + 1) "u" i,
     mkR (2 * i + 1) (toString i) ((i : ℚ) + 2) "v" i])

/-- Ledger whose image A has one event (a skip) and no valid rating. -/
def tblSkip : List Row := [mkR 1 "A" (-1) "u1" 0]

/-- Ledger where u1 has one valid rating and u2 only a skip (so u2 has
no mean valid rating). -/
def tblTwoUsers : List Row := [mkR 1 "A" 5 "u1" 0, mkR 2 "B" (-1) "u2" 1]

/-- Ledger where participant p has two events with distinct timestamps
and participant q one event. -/
def tblUndo : List Row := [mkR 1 "A" 5 "p" 0, mkR 2 "B" 3 "p" 1, mkR 3 "C" 7 "q" 2]

/-- Legacy-scale ledger: a 1-100 scale rating of 75, a skip and a
flag. -/
def tblLegacy : List Row := [mkR 1 "A" 75 "p" 0, mkR 2 "B" (-1) "p" 1, mkR 3 "C" (-2) "q" 2]

/-! Helper lemmas about the sorting, picking and counting combinators. -/

theorem perm_insertBy (le : α → α → Bool) (x : α) (l : List α) :
    List.Perm (insertBy le x l) (x :: l) := by
  induction l with
  | nil => simp [insertBy]
  | cons y ys ih =>
    unfold insertBy
    split
    · exact List.Perm.refl _
    · exact (ih.cons y).trans (List.Perm.swap x y ys)

theorem sortBy_perm (le : α → α → Bool) (l : List α) : List.Perm (sortBy le l) l := by
  induction l with
  | nil => exact List.Perm.refl _
  | cons x xs ih =>
    exact (perm_insertBy le x (sortBy le xs)).trans (ih.cons x)

theorem mem_insertBy (le : α → α → Bool) (x z : α) (l : List α) :
    z ∈ insertBy le x l ↔ z = x ∨ z ∈ l := by
  rw [(perm_insertBy le x l).mem_iff, List.mem_cons]

theorem pairwise_insertBy (le : α → α → Bool)
    (htot : ∀ a b, le a b = true ∨ le b a = true)
    (htr : ∀ a b c, le a b = true → le b c = true → le a c = true)
    (x : α) (l : List α) (h : l.Pairwise (fun a b => le a b = true)) :
    (insertBy le x l).Pairwise (fun a b => le a b = true) := by
  induction l with
  | nil => simp [insertBy]
  | cons y ys ih =>
    rcases List.pairwise_cons.mp h with ⟨hy, hys⟩
    unfold insertBy
    split
    · rename_i hxy
      refine List.pairwise_cons.mpr ⟨?_, h⟩
      intro z hz
      rcases List.mem_cons.mp hz with rfl | hz2
      · exact hxy
      · exact htr x y z hxy (hy z hz2)
    · rename_i hxy
      have hyx : le y x = true := by
        rcases htot x y with hc | hc
        · exact absurd hc hxy
        · exact hc
      refine List.pairwise_cons.mpr ⟨?_, ih hys⟩
      intro z hz
      rcases (mem_insertBy le x z ys).mp hz with rfl | hz2
      · exact hyx
      · exact hy z hz2

theorem sortBy_pairwise (le : α → α → Bool)
    (htot : ∀ a b, le a b = true ∨ le b a = true)
    (htr : ∀ a b c, le a b = true → le b c = true → le a c = true)
    (l : List α) :
    (sortBy le l).Pairwise (fun a b => le a b = true) := by
  induction l with
  | nil => simp [sortBy]
  | cons x xs ih => exact pairwise_insertBy le htot htr x (sortBy le xs) ih

theorem pickLatest_eq_none {l : List Row} : pickLatest l = none ↔ l = [] := by
  cases l with
  | nil => simp [pickLatest]
  | cons r rs =>
    constructor
    · intro h
      simp only [pickLatest] at h
      split at h
      · exact Option.noConfusion h
      · split at h <;> exact Option.noConfusion h
    · intro h; exact absurd h (List.cons_ne_nil r rs)

theorem pickLatest_spec {l : List Row} {r : Row} (h : pickLatest l = some r) :
    r ∈ l ∧ ∀ x ∈ l, x.timestamp ≤ r.timestamp := by
  induction l generalizing r with
  | nil => simp [pickLatest] at h
  | cons a as ih =>
    simp only [pickLatest] at h
    split at h
    · rename_i heq
      cases h
      have hnil : as = [] := pickLatest_eq_none.mp heq
      subst hnil
      refine ⟨List.mem_singleton.mpr rfl, ?_⟩
      intro x hx
      rcases List.mem_singleton.mp hx with rfl
      exact le_refl _
    · rename_i s heq
      obtain ⟨hmem, hmax⟩ := ih heq
      split at h
      · rename_i hc
        cases h
        refine ⟨List.mem_cons_of_mem a hmem, ?_⟩
        intro x hx
        rcases List.mem_cons.mp hx with rfl | hx2
        · exact le_of_lt hc
        · exact hmax x hx2
      · rename_i hc
        cases h
        refine ⟨List.mem_cons_self _ _, ?_⟩
        intro x hx
        rcases List.mem_cons.mp hx with rfl | hx2
        · exact le_refl _
        · exact le_trans (hmax x hx2) (not_lt.mp hc)

theorem countP_or_le (p q : α → Bool) (l : List α) :
    l.countP (fun a => p a || q a) ≤ l.countP p + l.countP q := by
  induction l with
  | nil => simp
  | cons x xs ih =>
    simp only [List.countP_cons]
    cases hp : p x <;> cases hq : q x <;> simp [hp, hq] <;> omega

theorem countP_gt_lt_take_desc (key : α → ℚ) :
    ∀ (L : List α) (k : Nat) (e : α),
      L.Pairwise (fun a b => key b ≤ key a) → e ∈ L.take k →
      L.countP (fun y => decide (key e < key y)) < k := by
  intro L
  induction L with
  | nil => intro k e _ he; simp at he
  | cons x xs ih =>
    intro k e hp he
    cases k with
    | zero => simp at he
    | succ k =>
      rw [List.take_succ_cons] at he
      rcases List.mem_cons.mp he with rfl | he2
      · have h0 : xs.countP (fun y => decide (key e < key y)) = 0 := by
          rw [List.countP_eq_zero]
          intro a ha
          simp only [decide_eq_true_eq]
          exact not_lt.mpr (List.rel_of_pairwise_cons hp ha)
        rw [List.countP_cons, h0]
        simp
      · have hlt := ih k e (List.Pairwise.of_cons hp) he2
        rw [List.countP_cons]
        split <;> omega

theorem countP_lt_lt_take_asc (key : α → ℚ) :
    ∀ (L : List α) (k : Nat) (e : α),
      L.Pairwise (fun a b => key a ≤ key b) → e ∈ L.take k →
      L.countP (fun y => decide (key y < key e)) < k := by
  intro L
  induction L with
  | nil => intro k e _ he; simp at he
  | cons x xs ih =>
    intro k e hp he
    cases k with
    | zero => simp at he
    | succ k =>
      rw [List.take_succ_cons] at he
      rcases List.mem_cons.mp he with rfl | he2
      · have h0 : xs.countP (fun y => decide (key y < key e)) = 0 := by
          rw [List.countP_eq_zero]
          intro a ha
          simp only [decide_eq_true_eq]
          exact not_lt.mpr (List.rel_of_pairwise_cons hp ha)
        rw [List.countP_cons, h0]
        simp
      · have hlt := ih k e (List.Pairwise.of_cons hp) he2
        rw [List.countP_cons]
        split <;> omega

theorem countP_eq_one_of_pairwise_ne (key : α → ℚ) :
    ∀ (L : List α) (e : α), L.Pairwise (fun a b => key a ≠ key b) → e ∈ L →
      L.countP (fun y => decide (key y = key e)) = 1 := by
  intro L
  induction L with
  | nil => intro e _ he; simp at he
  | cons x xs ih =>
    intro e hp he
    by_cases hx : key x = key e
    · have h0 : xs.countP (fun y => decide (key y = key e)) = 0 := by
        rw [List.countP_eq_zero]
        intro a ha
        simp only [decide_eq_true_eq]
        intro hae
        exact (List.rel_of_pairwise_cons hp ha) (hx.trans hae.symm)
      rw [List.countP_cons, h0]
      simp [hx]
    · have he2 : e ∈ xs := by
        rcases List.mem_cons.mp he with rfl | h2
        · exact absurd rfl hx
        · exact h2
      rw [List.countP_cons, ih e (List.Pairwise.of_cons hp) he2]
      simp [hx]

theorem le_foldl_max (l : List ℚ) (a : ℚ) : a ≤ l.foldl max a := by
  induction l generalizing a with
  | nil => exact le_refl a
  | cons x xs ih => exact le_trans (le_max_left a x) (ih (max a x))

theorem mem_le_foldl_max (l : List ℚ) (a : ℚ) : ∀ x ∈ l, x ≤ l.foldl max a := by
  induction l generalizing a with
  | nil => intro x hx; simp at hx
  | cons y ys ih =>
    intro x hx
    rcases List.mem_cons.mp hx with rfl | hx2
    · exact le_trans (le_max_right a x) (le_foldl_max ys (max a x))
    · exact ih (max a y) x hx2

theorem foldl_max_attained (l : List ℚ) (a : ℚ) :
    l.foldl max a = a ∨ ∃ x ∈ l, l.foldl max a = x := by
  induction l generalizing a with
  | nil => exact Or.inl rfl
  | cons y ys ih =>
    rcases ih (max a y) with h | ⟨x, hx, hex⟩
    · rcases le_total a y with hay | hya
      · exact Or.inr ⟨y, List.mem_cons_self _ _, by rw [List.foldl_cons, h, max_eq_right hay]⟩
      · exact Or.inl (by rw [List.foldl_cons, h, max_eq_left hya])
    · exact Or.inr ⟨x, List.mem_cons_of_mem y hx, by rw [List.foldl_cons, hex]⟩

theorem foldl_min_le (l : List ℚ) (a : ℚ) : l.foldl min a ≤ a := by
  induction l generalizing a with
  | nil => exact le_refl a
  | cons x xs ih => exact le_trans (ih (min a x)) (min_le_left a x)

theorem foldl_min_le_mem (l : List ℚ) (a : ℚ) : ∀ x ∈ l, l.foldl min a ≤ x := by
  induction l generalizing a with
  | nil => intro x hx; simp at hx
  | cons y ys ih =>
    intro x hx
    rcases List.mem_cons.mp hx with rfl | hx2
    · exact le_trans (foldl_min_le ys (min a x)) (min_le_right a x)
    · exact ih (min a y) x hx2

theorem foldl_min_attained (l : List ℚ) (a : ℚ) :
    l.foldl min a = a ∨ ∃ x ∈ l, l.foldl min a = x := by
  induction l generalizing a with
  | nil => exact Or.inl rfl
  | cons y ys ih =>
    rcases ih (min a y) with h | ⟨x, hx, hex⟩
    · rcases le_total a y with hay | hya
      · exact Or.inl (by rw [List.foldl_cons, h, min_eq_left hay])
      · exact Or.inr ⟨y, List.mem_cons_self _ _, by rw [List.foldl_cons, h, min_eq_right hya]⟩
    · exact Or.inr ⟨x, List.mem_cons_of_mem y hx, by rw [List.foldl_cons, hex]⟩

theorem roundTo1_int (n : ℤ) : roundTo1 ((n : ℚ) / 10) = (n : ℚ) / 10 := by
  unfold roundTo1
  rw [div_mul_cancel₀ _ (by norm_num : (10 : ℚ) ≠ 0), round_intCast]

/-- C2: the scale migration maps each table row pointwise: a positive
rating r becomes ROUND(r / 10, 1), the sentinel ratings -1 and -2 pass
through unchanged, and a positive integer-valued rating (the legacy
1-100 scale) becomes exactly r / 10, so 75 becomes 7.5. -/
theorem migrate_rating_value_spec (t : List Row) (i : Nat) (n : ℤ) (h : i < t.length) :
    ∃ r r2, t[i]? = some r ∧ (migrateTable t)[i]? = some r2 ∧
      (0 < r.rating → r2.rating = roundTo1 (r.rating / 10)) ∧
      (r.rating = (-1 : ℚ) → r2.rating = (-1 : ℚ)) ∧
      (r.rating = (-2 : ℚ) → r2.rating = (-2 : ℚ)) ∧
      (r.rating = (n : ℚ) → 0 < r.rating → r2.rating = r.rating / 10) := by
  have hmap : (migrateTable t)[i]? = some (migrateRow t[i]) := by
    rw [show migrateTable t = t.map migrateRow from rfl, List.getElem?_map,
      List.getElem?_eq_getElem h]
    rfl
  refine ⟨t[i], migrateRow t[i], List.getElem?_eq_getElem h, hmap, ?_, ?_, ?_, ?_⟩
  · intro hpos
    simp [migrateRow, if_pos hpos]
  · intro h1
    norm_num [migrateRow, h1]
  · intro h1
    norm_num [migrateRow, h1]
  · intro hn hpos
    rw [show (migrateRow t[i]).rating = roundTo1 (t[i].rating / 10) by
          simp [migrateRow, if_pos hpos]]
    rw [hn]
    exact roundTo1_int n

/-- Witness for migrate_rating_value_spec at the legacy ledger, row 0
(rating 75), with n = 75. -/
theorem migrate_rating_value_spec_witness :
    ∃ r r2, tblLegacy[0]? = some r ∧ (migrateTable tblLegacy)[0]? = some r2 ∧
      (0 < r.rating → r2.rating = roundTo1 (r.rating / 10)) ∧
      (r.rating = (-1 : ℚ) → r2.rating = (-1 : ℚ)) ∧
      (r.rating = (-2 : ℚ) → r2.rating = (-2 : ℚ)) ∧
      (r.rating = ((75 : ℤ) : ℚ) → 0 < r.rating → r2.rating = r.rating / 10) :=
  migrate_rating_value_spec tblLegacy 0 75 (by decide)

/-- C3: initialization is idempotent: a second init_db run sees the
already-migrated schema (REAL, detected from the stored column type) and
changes nothing, so two runs produce the same database as one. -/
theorem init_db_idempotent (db : DB) : init_db (init_db db) = init_db db := by
  rcases db with ⟨sc, rows⟩
  rcases sc with _ | ct
  · simp [init_db]
  · cases ct <;> simp [init_db, migrate_ratings_scale]

/-- C9: the scale migration preserves the number of rows and the id,
image_id, user_identifier and timestamp fields of every row; only the
rating field may change. -/
theorem migrateTable_frame (t : List Row) :
    (migrateTable t).length = t.length ∧
      (migrateTable t).map (fun r => (r.id, r.image_id, r.user_identifier, r.timestamp))
        = t.map (fun r => (r.id, r.image_id, r.user_identifier, r.timestamp)) := by
  refine ⟨by simp [migrateTable], ?_⟩
  simp only [migrateTable, List.map_map]
  rfl

/-- C1 (amended): get_rated_images returns one image_id entry per saved
event of the participant, whatever the rating value: its members are
exactly the image_ids ever saved for the participant, and a save for the
participant always appends its image_id to the result, but the returned
list may contain duplicates when the same image was saved twice. -/
theorem get_rated_images_spec (t : List Row) (p img : String) :
    (img ∈ get_rated_images t p ↔ ∃ r ∈ t, r.user_identifier = p ∧ r.image_id = img) ∧
    (∀ (idv img2 : String) (q : ℚ) (ts : Nat),
      get_rated_images (save_rating t idv img2 q p ts) p
        = get_rated_images t p ++ [img2]) := by
  constructor
  · simp only [get_rated_images, List.mem_map, List.mem_filter, decide_eq_true_eq]
    constructor
    · rintro ⟨r, ⟨hr, hu⟩, hi⟩
      exact ⟨r, hr, hu, hi⟩
    · rintro ⟨r, hr, hu, hi⟩
      exact ⟨r, ⟨hr, hu⟩, hi⟩
  · intro idv img2 q ts
    simp [get_rated_images, save_rating, List.filter_append]

/-- C1 counterexample: after saving image A twice for participant p
(once rated 5, once skipped), get_rated_images returns the duplicate
list [A, A], not a duplicate-free list. -/
theorem get_rated_images_duplicates :
    get_rated_images tblDup "p" = ["A", "A"] ∧ ¬ (get_rated_images tblDup "p").Nodup := by
  decide

theorem likeChars_pct_nil (s : List Char) : likeChars ['%'] s = true := by
  rw [show likeChars ['%'] s = s.tails.any (fun s2 => likeChars [] s2) from rfl]
  rw [List.any_eq_true]
  exact ⟨[], (List.mem_tails _ _).mpr List.nil_suffix, rfl⟩

theorem likeWrapped_empty (s : String) : likeWrapped s "" = true := by
  rw [show likeWrapped s "" = (s.data.tails).any (fun s2 => likeChars ['%'] s2) from rfl]
  rw [List.any_eq_true]
  exact ⟨s.data, (List.mem_tails _ _).mpr (List.suffix_refl _), likeChars_pct_nil _⟩

/-- C10: in substring mode cleanup interprets the pattern as a SQL LIKE
fragment wrapped in percent wildcards: the empty pattern matches every
participant and deletes every event of the ledger, and an underscore or
percent inside the pattern acts as a wildcard rather than matching
literally (patterns al_ce and a%e delete the events of alice, although
alice contains neither character as a literal substring). -/
theorem cleanup_like_wildcards :
    (∀ t : List Row, cleanup_test_users t "" false
        = (((t.map Row.user_identifier).dedup.length, t.length), [])) ∧
    cleanup_test_users tblAlice "al_ce" false = ((1, 1), []) ∧
    cleanup_test_users tblAlice "a%e" false = ((1, 1), []) ∧
    containsCI "alice" "al_ce" = false ∧
    containsCI "alice" "a%e" = false := by
  refine ⟨?_, by decide, by decide, by decide, by decide⟩
  intro t
  have hm : ∀ r : Row, cleanupMatches "" false r = true := by
    intro r
    exact likeWrapped_empty _
  unfold cleanup_test_users
  rw [List.filter_eq_self.mpr (fun a _ => hm a)]
  rw [show (t.filter (fun r => ! cleanupMatches "" false r)) = [] by
        rw [List.filter_eq_nil_iff]
        intro a _
        simp [hm a]]
  by_cases ht : t = []
  · subst ht
    rfl
  · have hne : (t.map Row.user_identifier).dedup ≠ [] := by
      rw [ne_eq, List.dedup_eq_nil, List.map_eq_nil_iff]
      exact ht
    rw [if_neg (by simpa using hne)]

/-- C5 counterexample: with pattern underscore in substring mode, the
code deletes the events of alice (LIKE treats the underscore as a
wildcard) although alice does not contain an underscore as a
case-insensitive substring, so cleanup does not delete exactly the
participants containing the pattern as a substring. -/
theorem cleanup_substring_cex :
    cleanup_test_users tblAlice "_" false = ((1, 1), []) ∧
    containsCI "alice" "_" = false := by
  decide

/-- C5 (amended): cleanup with the SQL LIKE percent-wrapped match (exact
string equality when exact_match): the remaining table is exactly the
non-matching rows, the second count is the number of deleted rows, the
first count is the number of distinct matching participants, and when
nothing matches the result is ((0, 0), unchanged table). -/
theorem cleanup_test_users_spec (t : List Row) (pat : String) (exact : Bool) :
    (cleanup_test_users t pat exact).2
        = t.filter (fun r => ! cleanupMatches pat exact r) ∧
    (cleanup_test_users t pat exact).1.2 = t.countP (cleanupMatches pat exact) ∧
    (cleanup_test_users t pat exact).1.1
        = ((t.filter (cleanupMatches pat exact)).map Row.user_identifier).toFinset.card ∧
    (t.countP (cleanupMatches pat exact) = 0 →
      cleanup_test_users t pat exact = ((0, 0), t)) := by
  unfold cleanup_test_users
  by_cases h : ((t.filter (cleanupMatches pat exact)).map Row.user_identifier).dedup = []
  · have hfil : t.filter (cleanupMatches pat exact) = [] := by
      rw [List.dedup_eq_nil, List.map_eq_nil_iff] at h
      exact h
    have hnone : ∀ a ∈ t, ¬ cleanupMatches pat exact a = true :=
      List.filter_eq_nil_iff.mp hfil
    rw [if_pos (by simpa using h)]
    refine ⟨?_, ?_, ?_, fun _ => rfl⟩
    · rw [eq_comm, List.filter_eq_self]
      intro a ha
      simp [hnone a ha]
    · rw [List.countP_eq_length_filter, hfil]
      rfl
    · rw [hfil]
      rfl
  · rw [if_neg (by simpa using h)]
    refine ⟨rfl, (List.countP_eq_length_filter _ _).symm, (List.card_toFinset _).symm, ?_⟩
    intro hc
    exfalso
    apply h
    rw [List.countP_eq_length_filter] at hc
    rw [List.dedup_eq_nil, List.map_eq_nil_iff]
    exact List.length_eq_zero.mp hc

/-- Witness for cleanup_test_users_spec at the alice ledger with a
non-matching exact pattern. -/
theorem cleanup_test_users_spec_witness :
    cleanup_test_users tblAlice "zzz" true = ((0, 0), tblAlice) :=
  (cleanup_test_users_spec tblAlice "zzz" true).2.2.2 (by decide)

theorem mem_sortBy {le : α → α → Bool} {l : List α} {a : α} :
    a ∈ sortBy le l ↔ a ∈ l :=
  (sortBy_perm le l).mem_iff

theorem countP_filter_comm (t : List Row) (p q : Row → Bool) :
    (t.filter q).countP p = t.countP (fun a => q a && p a) := by
  rw [List.countP_filter]
  exact List.countP_congr (fun x _ => by simp [Bool.and_comm])

/-- C7: for every image with at least one event but zero valid
(positive) ratings, get_image_statistics reports its mean, min and max
as absent (none; SQL NULL), never zero, while still reporting the
correct total, valid, skip and flag counts. -/
theorem image_statistics_zero_valid (t : List Row) (img : String)
    (hev : ∃ r ∈ t, r.image_id = img)
    (hval : t.countP (fun r => decide (r.image_id = img) && decide (0 < r.rating)) = 0) :
    ∃ s ∈ get_image_statistics t, s.image_id = img ∧
      s.avg_rating = none ∧ s.min_rating = none ∧ s.max_rating = none ∧
      s.valid_ratings = 0 ∧
      s.total_ratings = t.countP (fun r => decide (r.image_id = img)) ∧
      s.skips = t.countP (fun r => decide (r.image_id = img) && decide (r.rating = -1)) ∧
      s.flags = t.countP (fun r => decide (r.image_id = img) && decide (r.rating = -2)) := by
  obtain ⟨r0, hr0, himg⟩ := hev
  have hnil : validRatings t img = [] := by
    unfold validRatings
    rw [List.map_eq_nil_iff, List.filter_eq_nil_iff]
    intro a ha
    intro hcontra
    have := List.countP_eq_zero.mp hval a ha
    exact this hcontra
  have hmem : mkImageStats t img ∈ get_image_statistics t := by
    unfold get_image_statistics
    rw [mem_sortBy]
    exact List.mem_map.mpr ⟨img, List.mem_dedup.mpr (List.mem_map.mpr ⟨r0, hr0, himg⟩), rfl⟩
  refine ⟨mkImageStats t img, hmem, rfl, ?_, ?_, ?_, ?_, ?_, ?_, ?_⟩
  · show avgQ (validRatings t img) = none
    rw [hnil]
    rfl
  · show minQ (validRatings t img) = none
    rw [hnil]
    rfl
  · show maxQ (validRatings t img) = none
    rw [hnil]
    rfl
  · show (imageRows t img).countP (fun r => decide (0 < r.rating)) = 0
    unfold imageRows
    rw [countP_filter_comm]
    exact hval
  · show (imageRows t img).length = _
    unfold imageRows
    rw [List.countP_eq_length_filter]
  · show (imageRows t img).countP (fun r => decide (r.rating = -1)) = _
    unfold imageRows
    rw [countP_filter_comm]
  · show (imageRows t img).countP (fun r => decide (r.rating = -2)) = _
    unfold imageRows
    rw [countP_filter_comm]

/-- Witness for image_statistics_zero_valid at the one-skip ledger. -/
theorem image_statistics_zero_valid_witness :
    ∃ s ∈ get_image_statistics tblSkip, s.image_id = "A" ∧
      s.avg_rating = none ∧ s.min_rating = none ∧ s.max_rating = none ∧
      s.valid_ratings = 0 ∧
      s.total_ratings = tblSkip.countP (fun r => decide (r.image_id = "A")) ∧
      s.skips = tblSkip.countP (fun r => decide (r.image_id = "A") && decide (r.rating = -1)) ∧
      s.flags = tblSkip.countP (fun r => decide (r.image_id = "A") && decide (r.rating = -2)) :=
  image_statistics_zero_valid tblSkip "A" ⟨mkR 1 "A" (-1) "u1" 0, by decide, rfl⟩ (by decide)

theorem filter_ne_id_length {t : List Row} {r : Row}
    (hnd : (t.map Row.id).Nodup) (hr : r ∈ t) :
    (t.filter (fun x => ! decide (x.id = r.id))).length + 1 = t.length := by
  induction t with
  | nil => simp at hr
  | cons a as ih =>
    have hnd2 : (a.id ∉ as.map Row.id) ∧ (as.map Row.id).Nodup := by
      rw [List.map_cons] at hnd
      exact List.nodup_cons.mp hnd
    rcases List.mem_cons.mp hr with rfl | hmem
    · have hall : as.filter (fun x => ! decide (x.id = r.id)) = as := by
        rw [List.filter_eq_self]
        intro x hx
        simp only [Bool.not_eq_true', decide_eq_false_iff_not]
        intro heq
        exact hnd2.1 (List.mem_map.mpr ⟨x, hx, heq⟩)
      rw [List.filter_cons, if_neg (by simp), hall]
      simp
    · have haid : (! decide (a.id = r.id)) = true := by
        simp only [Bool.not_eq_true', decide_eq_false_iff_not]
        intro heq
        apply hnd2.1
        rw [heq]
        exact List.mem_map.mpr ⟨r, hmem, rfl⟩
      rw [List.filter_cons, if_pos haid]
      have := ih hnd2.2 hmem
      simp only [List.length_cons]
      omega

/-- C4: for a participant with at least one event, undo_last_rating
deletes exactly one row, one whose timestamp is maximal among the
participant's events, and returns its (image_id, rating) pair; for a
participant with no events it deletes nothing and returns the explicit
empty result none. -/
theorem undo_last_rating_spec (t : List Row) (p : String)
    (hnd : (t.map Row.id).Nodup) :
    ((∀ r ∈ t, r.user_identifier ≠ p) → undo_last_rating t p = (none, t)) ∧
    (∀ r0 ∈ t, r0.user_identifier = p →
      ∃ r ∈ t, r.user_identifier = p ∧
        (∀ x ∈ t, x.user_identifier = p → x.timestamp ≤ r.timestamp) ∧
        (undo_last_rating t p).1 = some (r.image_id, r.rating) ∧
        (undo_last_rating t p).2.length + 1 = t.length ∧
        r ∉ (undo_last_rating t p).2 ∧
        (∀ x ∈ t, x ≠ r → x ∈ (undo_last_rating t p).2)) := by
  constructor
  · intro hno
    have hnil : userRows t p = [] := by
      rw [userRows, List.filter_eq_nil_iff]
      intro a ha
      simp [hno a ha]
    unfold undo_last_rating
    rw [hnil]
    rfl
  · intro r0 hr0 hp0
    have hne : userRows t p ≠ [] := by
      intro hnil
      have : r0 ∈ userRows t p := List.mem_filter.mpr ⟨hr0, by simp [hp0]⟩
      rw [hnil] at this
      simp at this
    obtain ⟨r, hpl⟩ : ∃ r, pickLatest (userRows t p) = some r := by
      cases hpl : pickLatest (userRows t p) with
      | none => exact absurd (pickLatest_eq_none.mp hpl) hne
      | some r => exact ⟨r, rfl⟩
    obtain ⟨hmemU, hmaxU⟩ := pickLatest_spec hpl
    have hrt : r ∈ t := (List.mem_filter.mp hmemU).1
    have hrp : r.user_identifier = p := by
      have := (List.mem_filter.mp hmemU).2
      simpa using this
    refine ⟨r, hrt, hrp, ?_, ?_, ?_, ?_, ?_⟩
    · intro x hx hxp
      exact hmaxU x (List.mem_filter.mpr ⟨hx, by simp [hxp]⟩)
    · unfold undo_last_rating
      rw [hpl]
    · unfold undo_last_rating
      rw [hpl]
      exact filter_ne_id_length hnd hrt
    · unfold undo_last_rating
      rw [hpl]
      intro hmem2
      have : (! decide (r.id = r.id)) = true := (List.mem_filter.mp hmem2).2
      simp at this
    · intro x hx hxne
      unfold undo_last_rating
      rw [hpl]
      refine List.mem_filter.mpr ⟨hx, ?_⟩
      simp only [Bool.not_eq_true', decide_eq_false_iff_not]
      intro heq
      exact hxne (List.inj_on_of_nodup_map hnd hx hrt heq)

/-- Witness for undo_last_rating_spec at the three-event ledger: p has
an event, and undo removes exactly one maximal-timestamp event of p. -/
theorem undo_last_rating_spec_witness :
    ∃ r ∈ tblUndo, r.user_identifier = "p" ∧
      (∀ x ∈ tblUndo, x.user_identifier = "p" → x.timestamp ≤ r.timestamp) ∧
      (undo_last_rating tblUndo "p").1 = some (r.image_id, r.rating) ∧
      (undo_last_rating tblUndo "p").2.length + 1 = tblUndo.length ∧
      r ∉ (undo_last_rating tblUndo "p").2 ∧
      (∀ x ∈ tblUndo, x ≠ r → x ∈ (undo_last_rating tblUndo "p").2) :=
  (undo_last_rating_spec tblUndo "p" (by decide)).2 (mkR 1 "A" 5 "p" 0) (by decide) rfl

theorem mem_qualifyingImages {t : List Row} {e : TBEntry} (h : e ∈ qualifyingImages t) :
    2 ≤ (validRatings t e.1).length ∧ e.2.2 = (validRatings t e.1).length := by
  unfold qualifyingImages at h
  obtain ⟨img, _, hfe⟩ := List.mem_filterMap.mp h
  simp only at hfe
  by_cases hc : 2 ≤ (validRatings t img).length
  · rw [if_pos hc] at hfe
    cases hfe
    exact ⟨hc, rfl⟩
  · rw [if_neg hc] at hfe
    exact absurd hfe (by simp)

theorem qualifying_fst_pairwise (t : List Row) :
    (qualifyingImages t).Pairwise (fun a b => a.1 ≠ b.1) := by
  have fst_of : ∀ (img : String) (x : TBEntry),
      (let vs := validRatings t img
       if 2 ≤ vs.length then some (img, vs.sum / (vs.length : ℚ), vs.length) else none)
        = some x → x.1 = img := by
    intro img x hfx
    simp only at hfx
    by_cases hc : 2 ≤ (validRatings t img).length
    · rw [if_pos hc] at hfx
      cases hfx
      rfl
    · rw [if_neg hc] at hfx
      exact absurd hfx (by simp)
  have hnd : ((((t.filter (fun r => decide (0 < r.rating))).map Row.image_id)).dedup).Pairwise
      (fun a b => a ≠ b) := List.nodup_dedup _
  exact hnd.filterMap _ (by
    intro a b hab x hx y hy
    have hxa : x.1 = a := fst_of a x hx
    have hyb : y.1 = b := fst_of b y hy
    rw [hxa, hyb]
    exact hab)

/-- C6 counterexample: with six qualifying images all tied at mean 5,
both the top-3 and the bottom-3 query return the same first entry, so
the two lists are not disjoint even though six images qualify. -/
theorem top_and_bottom_not_disjoint :
    (get_top_and_bottom_images tblTied).1.head? = some ("0", 5, 2) ∧
    (get_top_and_bottom_images tblTied).2.head? = some ("0", 5, 2) ∧
    6 ≤ (qualifyingImages tblTied).length := by
  with_unfolding_all decide

/-- C6 (amended): neither returned list ever holds an image with fewer
than 2 valid ratings; and whenever at least 6 images qualify and the
qualifying mean ratings are pairwise distinct, the top and bottom lists
are disjoint.  (With ties the two ORDER BY ... LIMIT 3 queries can pick
overlapping images, as the counterexample shows.) -/
theorem get_top_and_bottom_images_spec (t : List Row) (e1 e2 : TBEntry)
    (h1 : e1 ∈ (get_top_and_bottom_images t).1)
    (h2 : e2 ∈ (get_top_and_bottom_images t).2) :
    2 ≤ (validRatings t e1.1).length ∧ 2 ≤ (validRatings t e2.1).length ∧
    ((qualifyingImages t).Pairwise (fun a b => a.2.1 ≠ b.2.1) →
      6 ≤ (qualifyingImages t).length → e1.1 ≠ e2.1) := by
  have h1t : e1 ∈ (sortBy (fun a b : TBEntry => decide (b.2.1 ≤ a.2.1))
      (qualifyingImages t)).take 3 := h1
  have h2t : e2 ∈ (sortBy (fun a b : TBEntry => decide (a.2.1 ≤ b.2.1))
      (qualifyingImages t)).take 3 := h2
  have hq1 : e1 ∈ qualifyingImages t := mem_sortBy.mp (List.mem_of_mem_take h1t)
  have hq2 : e2 ∈ qualifyingImages t := mem_sortBy.mp (List.mem_of_mem_take h2t)
  refine ⟨(mem_qualifyingImages hq1).1, (mem_qualifyingImages hq2).1, ?_⟩
  intro hdist h6 heq
  have he : e1 = e2 := by
    by_contra hne
    have hsym : Symmetric (fun a b : TBEntry => a.1 ≠ b.1) := fun _ _ h => Ne.symm h
    exact (qualifying_fst_pairwise t).forall hsym hq1 hq2 hne heq
  subst he
  have hsortedD : (sortBy (fun a b : TBEntry => decide (b.2.1 ≤ a.2.1))
      (qualifyingImages t)).Pairwise (fun a b => b.2.1 ≤ a.2.1) := by
    refine (sortBy_pairwise _ ?_ ?_ _).imp (fun h => of_decide_eq_true h)
    · intro a b
      rcases le_total b.2.1 a.2.1 with h | h
      · exact Or.inl (decide_eq_true h)
      · exact Or.inr (decide_eq_true h)
    · intro a b c hab hbc
      exact decide_eq_true (le_trans (of_decide_eq_true hbc) (of_decide_eq_true hab))
  have hsortedA : (sortBy (fun a b : TBEntry => decide (a.2.1 ≤ b.2.1))
      (qualifyingImages t)).Pairwise (fun a b => a.2.1 ≤ b.2.1) := by
    refine (sortBy_pairwise _ ?_ ?_ _).imp (fun h => of_decide_eq_true h)
    · intro a b
      rcases le_total a.2.1 b.2.1 with h | h
      · exact Or.inl (decide_eq_true h)
      · exact Or.inr (decide_eq_true h)
    · intro a b c hab hbc
      exact decide_eq_true (le_trans (of_decide_eq_true hab) (of_decide_eq_true hbc))
  have hA : (qualifyingImages t).countP (fun y => decide (e1.2.1 < y.2.1)) < 3 := by
    have h' := countP_gt_lt_take_desc (fun e : TBEntry => e.2.1) _ 3 e1 hsortedD h1t
    rwa [List.Perm.countP_eq _ (sortBy_perm _ (qualifyingImages t))] at h'
  have hB : (qualifyingImages t).countP (fun y => decide (y.2.1 < e1.2.1)) < 3 := by
    have h' := countP_lt_lt_take_asc (fun e : TBEntry => e.2.1) _ 3 e1 hsortedA h2t
    rwa [List.Perm.countP_eq _ (sortBy_perm _ (qualifyingImages t))] at h'
  have hC : (qualifyingImages t).countP (fun y => decide (y.2.1 = e1.2.1)) = 1 :=
    countP_eq_one_of_pairwise_ne (fun e : TBEntry => e.2.1) _ e1 hdist hq1
  have hcov : (qualifyingImages t).length = (qualifyingImages t).countP
      (fun y => decide (e1.2.1 < y.2.1)
        || (decide (y.2.1 < e1.2.1) || decide (y.2.1 = e1.2.1))) := by
    rw [eq_comm, List.countP_eq_length]
    intro a _
    rcases lt_trichotomy e1.2.1 a.2.1 with h | h | h
    · simp [h]
    · simp [h.symm]
    · simp [h]
  have hle : (qualifyingImages t).countP
      (fun y => decide (e1.2.1 < y.2.1)
        || (decide (y.2.1 < e1.2.1) || decide (y.2.1 = e1.2.1)))
      ≤ (qualifyingImages t).countP (fun y => decide (e1.2.1 < y.2.1))
        + (qualifyingImages t).countP
          (fun y => decide (y.2.1 < e1.2.1) || decide (y.2.1 = e1.2.1)) :=
    countP_or_le _ _ _
  have hle2 : (qualifyingImages t).countP
      (fun y => decide (y.2.1 < e1.2.1) || decide (y.2.1 = e1.2.1))
      ≤ (qualifyingImages t).countP (fun y => decide (y.2.1 < e1.2.1))
        + (qualifyingImages t).countP (fun y => decide (y.2.1 = e1.2.1)) :=
    countP_or_le _ _ _
  omega

/-- Witness for get_top_and_bottom_images_spec at the six-image ledger
with pairwise-distinct means: the top entry for image 5 and the bottom
entry for image 0 both have at least 2 valid ratings and are distinct
images. -/
theorem get_top_and_bottom_images_spec_witness :
    2 ≤ (validRatings tblDistinct "5").length ∧
    2 ≤ (validRatings tblDistinct "0").length ∧
    ("5" : String) ≠ "0" := by
  have h := get_top_and_bottom_images_spec tblDistinct ("5", (13 : ℚ)/2, 2)
    ("0", (3 : ℚ)/2, 2) (by with_unfolding_all decide) (by with_unfolding_all decide)
  exact ⟨h.1, h.2.1, h.2.2 (by with_unfolding_all decide) (by with_unfolding_all decide)⟩

theorem mem_get_user_statistics {t : List Row} {u : UserStats} :
    u ∈ get_user_statistics t ↔
      ∃ q ∈ (t.map Row.user_identifier).dedup, u = mkUserStats t q := by
  unfold get_user_statistics
  rw [mem_sortBy, List.mem_map]
  constructor
  · rintro ⟨q, hq, rfl⟩
    exact ⟨q, hq, rfl⟩
  · rintro ⟨q, hq, rfl⟩
    exact ⟨q, hq, rfl⟩

theorem half_lt_div_iff (f tot : Nat) (h : 0 < tot) :
    ((1 : ℚ) / 2 < (f : ℚ) / (tot : ℚ)) ↔ tot < 2 * f := by
  rw [div_lt_div_iff₀ (by norm_num) (show (0 : ℚ) < (tot : ℚ) by exact_mod_cast h), one_mul]
  rw [show ((f : ℚ) * 2) = ((2 * f : Nat) : ℚ) by push_cast; ring]
  exact Nat.cast_lt

/-- C8 counterexample: participant u2 has no valid ratings (one skip
only), so the spec-side condition does not hold for u2 (no mean valid
rating, no excess flags), yet the dashboard filter zero-fills the
missing mean, making 0 the global minimum, and reports u2 as
suspicious. -/
theorem suspiciousUsers_cex :
    "u2" ∈ suspiciousUsers tblTwoUsers ∧ specSuspicious tblTwoUsers "u2" = false := by
  with_unfolding_all decide

/-- C8 (amended): suspiciousUsers returns exactly the participants whose
zero-filled mean valid rating (the dashboard fillna treats a missing
mean as 0) is maximal among all participants, or minimal among all
participants, or whose flag count exceeds half their total
submissions. -/
theorem suspiciousUsers_spec (t : List Row) (p : String) :
    p ∈ suspiciousUsers t ↔
      (∃ r ∈ t, r.user_identifier = p) ∧
        ((∀ q, (∃ r ∈ t, r.user_identifier = q) → meanFill t q ≤ meanFill t p) ∨
         (∀ q, (∃ r ∈ t, r.user_identifier = q) → meanFill t p ≤ meanFill t q) ∨
         totalCount t p < 2 * flagCount t p) := by
  have hpart : ∀ q : String, q ∈ (t.map Row.user_identifier).dedup ↔
      ∃ r ∈ t, r.user_identifier = q := by
    intro q
    rw [List.mem_dedup, List.mem_map]
  cases hstats : get_user_statistics t with
  | nil =>
    have hbase : (((t.map Row.user_identifier).dedup).map (mkUserStats t)) = [] := by
      have hperm := (sortBy_perm
        (fun a b : UserStats => decide (b.total_submissions ≤ a.total_submissions))
        (((t.map Row.user_identifier).dedup).map (mkUserStats t))).symm
      rw [show sortBy (fun a b : UserStats =>
            decide (b.total_submissions ≤ a.total_submissions))
            (((t.map Row.user_identifier).dedup).map (mkUserStats t))
          = get_user_statistics t from rfl, hstats] at hperm
      rw [← List.length_eq_zero]
      simpa using hperm.length_eq
    have ht : t = [] := by
      rw [List.map_eq_nil_iff, List.dedup_eq_nil, List.map_eq_nil_iff] at hbase
      exact hbase
    subst ht
    constructor
    · intro hp
      rw [show suspiciousUsers [] = [] by rfl] at hp
      simp at hp
    · rintro ⟨⟨r, hr, _⟩, _⟩
      simp at hr
  | cons u us =>
    have hmem : ∀ v : UserStats, v ∈ u :: us ↔
        ∃ q ∈ (t.map Row.user_identifier).dedup, v = mkUserStats t q := by
      intro v
      rw [← hstats]
      exact mem_get_user_statistics
    have hgoal : suspiciousUsers t
        = ((u :: us).filter (fun v =>
            decide (avgFill v = us.foldl (fun m v2 => max m (avgFill v2)) (avgFill u)) ||
            decide (avgFill v = us.foldl (fun m v2 => min m (avgFill v2)) (avgFill u)) ||
            decide ((1 : ℚ) / 2 < (v.flags : ℚ) / (v.total_submissions : ℚ)))).map
          UserStats.user_identifier := by
      unfold suspiciousUsers
      rw [hstats]
    have hub : ∀ w ∈ u :: us,
        avgFill w ≤ us.foldl (fun m v2 => max m (avgFill v2)) (avgFill u) := by
      intro w hw
      rw [show us.foldl (fun m v2 => max m (avgFill v2)) (avgFill u)
            = (us.map avgFill).foldl max (avgFill u) from (List.foldl_map _ _ _ _).symm]
      rcases List.mem_cons.mp hw with rfl | hw2
      · exact le_foldl_max _ _
      · exact mem_le_foldl_max _ _ _ (List.mem_map.mpr ⟨w, hw2, rfl⟩)
    have hmx_att : ∃ w ∈ u :: us,
        us.foldl (fun m v2 => max m (avgFill v2)) (avgFill u) = avgFill w := by
      rw [show us.foldl (fun m v2 => max m (avgFill v2)) (avgFill u)
            = (us.map avgFill).foldl max (avgFill u) from (List.foldl_map _ _ _ _).symm]
      rcases foldl_max_attained (us.map avgFill) (avgFill u) with h | ⟨x, hx, hex⟩
      · exact ⟨u, List.mem_cons_self _ _, h⟩
      · obtain ⟨w, hw, rfl⟩ := List.mem_map.mp hx
        exact ⟨w, List.mem_cons_of_mem _ hw, hex⟩
    have hlb : ∀ w ∈ u :: us,
        us.foldl (fun m v2 => min m (avgFill v2)) (avgFill u) ≤ avgFill w := by
      intro w hw
      rw [show us.foldl (fun m v2 => min m (avgFill v2)) (avgFill u)
            = (us.map avgFill).foldl min (avgFill u) from (List.foldl_map _ _ _ _).symm]
      rcases List.mem_cons.mp hw with rfl | hw2
      · exact foldl_min_le _ _
      · exact foldl_min_le_mem _ _ _ (List.mem_map.mpr ⟨w, hw2, rfl⟩)
    have hmn_att : ∃ w ∈ u :: us,
        us.foldl (fun m v2 => min m (avgFill v2)) (avgFill u) = avgFill w := by
      rw [show us.foldl (fun m v2 => min m (avgFill v2)) (avgFill u)
            = (us.map avgFill).foldl min (avgFill u) from (List.foldl_map _ _ _ _).symm]
      rcases foldl_min_attained (us.map avgFill) (avgFill u) with h | ⟨x, hx, hex⟩
      · exact ⟨u, List.mem_cons_self _ _, h⟩
      · obtain ⟨w, hw, rfl⟩ := List.mem_map.mp hx
        exact ⟨w, List.mem_cons_of_mem _ hw, hex⟩
    rw [hgoal, List.mem_map]
    constructor
    · rintro ⟨v, hvf, hvp⟩
      have hv : v ∈ u :: us := (List.mem_filter.mp hvf).1
      have hpred := (List.mem_filter.mp hvf).2
      simp only [Bool.or_eq_true, decide_eq_true_eq] at hpred
      obtain ⟨q, hq, rfl⟩ := (hmem v).mp hv
      have hqp : q = p := hvp
      subst hqp
      have hqpart : ∃ r ∈ t, r.user_identifier = q := (hpart q).mp hq
      refine ⟨hqpart, ?_⟩
      have htot_pos : 0 < totalCount t q := by
        rw [totalCount, List.countP_pos_iff]
        obtain ⟨r, hr, hrq⟩ := hqpart
        exact ⟨r, hr, by simp [hrq]⟩
      rcases hpred with (hmx | hmn) | hflag
      · left
        intro q2 hq2
        have hmem2 : mkUserStats t q2 ∈ u :: us := (hmem _).mpr ⟨q2, (hpart q2).mpr hq2, rfl⟩
        have h3 := hub _ hmem2
        rw [← hmx] at h3
        exact h3
      · right; left
        intro q2 hq2
        have hmem2 : mkUserStats t q2 ∈ u :: us := (hmem _).mpr ⟨q2, (hpart q2).mpr hq2, rfl⟩
        have h3 := hlb _ hmem2
        rw [← hmn] at h3
        exact h3
      · right; right
        have hfe : (mkUserStats t q).flags = flagCount t q := countP_filter_comm t _ _
        have hte : (mkUserStats t q).total_submissions = totalCount t q :=
          (List.countP_eq_length_filter _ _).symm
        rw [hfe, hte] at hflag
        exact (half_lt_div_iff _ _ htot_pos).mp hflag
    · rintro ⟨hqpart, hcond⟩
      have hpd : p ∈ (t.map Row.user_identifier).dedup := (hpart p).mpr hqpart
      have hvmem : mkUserStats t p ∈ u :: us := (hmem _).mpr ⟨p, hpd, rfl⟩
      refine ⟨mkUserStats t p, List.mem_filter.mpr ⟨hvmem, ?_⟩, rfl⟩
      simp only [Bool.or_eq_true, decide_eq_true_eq]
      have htot_pos : 0 < totalCount t p := by
        rw [totalCount, List.countP_pos_iff]
        obtain ⟨r, hr, hrq⟩ := hqpart
        exact ⟨r, hr, by simp [hrq]⟩
      rcases hcond with hmax | hmin | hflag
      · left; left
        obtain ⟨w, hw, hwe⟩ := hmx_att
        obtain ⟨qw, hqw, rfl⟩ := (hmem w).mp hw
        have h1 : avgFill (mkUserStats t p)
            ≤ us.foldl (fun m v2 => max m (avgFill v2)) (avgFill u) := hub _ hvmem
        have h2 : avgFill (mkUserStats t qw) ≤ avgFill (mkUserStats t p) :=
          hmax qw ((hpart qw).mp hqw)
        rw [hwe] at h1
        rw [hwe]
        exact le_antisymm h1 h2
      · left; right
        obtain ⟨w, hw, hwe⟩ := hmn_att
        obtain ⟨qw, hqw, rfl⟩ := (hmem w).mp hw
        have h1 : us.foldl (fun m v2 => min m (avgFill v2)) (avgFill u)
            ≤ avgFill (mkUserStats t p) := hlb _ hvmem
        have h2 : avgFill (mkUserStats t p) ≤ avgFill (mkUserStats t qw) :=
          hmin qw ((hpart qw).mp hqw)
        rw [hwe] at h1
        rw [hwe]
        exact le_antisymm h2 h1
      · right
        have hfe : (mkUserStats t p).flags = flagCount t p := countP_filter_comm t _ _
        have hte : (mkUserStats t p).total_submissions = totalCount t p :=
          (List.countP_eq_length_filter _ _).symm
        rw [hfe, hte]
        exact (half_lt_div_iff _ _ htot_pos).mpr hflag
